import Mathlib

/-!
Verification of the TaskFlow API ordered-collection logic.

Shallow embedding of `src/app/models.py`, `src/app/schemas.py`,
`src/app/routers/tasks.py`, `src/app/routers/lists.py` and
`src/app/routers/projects.py`.  The database is modelled as three tables
(lists of rows); each router handler becomes a pure function from a
database state and the request payload to `Except ApiError` of the new
state (the handlers validate before mutating, so an error result means
the state is unchanged).  Python ints are `Int` where sign matters
(positions) and `Nat` for ids.
-/

namespace TaskFlow

/-- A row of the `tasks` table (`models.Task`). -/
structure Task where
  id : Nat
  title : String
  description : Option String
  list_id : Nat
  position : Int
  deriving Repr, DecidableEq

/-- A row of the `lists` table (`models.List`). -/
structure ListItem where
  id : Nat
  name : String
  project_id : Nat
  position : Int
  deriving Repr, DecidableEq

/-- A row of the `projects` table (`models.Project`). -/
structure Project where
  id : Nat
  name : String
  deriving Repr, DecidableEq

/-- The database state: the three tables. -/
structure DB where
  projects : List Project
  lists : List ListItem
  tasks : List Task
  deriving Repr, DecidableEq

/-- The two error kinds the routers raise: HTTP 404 (`NotFound`) and
HTTP 400 (`InvalidPosition`). -/
inductive ApiError where
  | notFound
  | invalidPosition
  deriving Repr, DecidableEq

/-- `select(models.Task).filter(models.Task.id == task_id)` + `scalar_one_or_none`. -/
def findTask (db : DB) (tid : Nat) : Option Task :=
  db.tasks.find? (fun t => t.id = tid)

/-- `select(models.List).filter(models.List.id == list_id)` + `scalar_one_or_none`. -/
def findList (db : DB) (lid : Nat) : Option ListItem :=
  db.lists.find? (fun l => l.id = lid)

/-- `select(models.Project).filter(models.Project.id == project_id)` + `scalar_one_or_none`. -/
def findProject (db : DB) (pid : Nat) : Option Project :=
  db.projects.find? (fun p => p.id = pid)

/-- The members of the Tasks-within-List container `lid`. -/
def tasksInList (db : DB) (lid : Nat) : List Task :=
  db.tasks.filter (fun t => t.list_id = lid)

/-- `select(func.count(models.Task.id)).filter(models.Task.list_id == list_id)`. -/
def countTasksInList (db : DB) (lid : Nat) : Nat :=
  (tasksInList db lid).length

/-- The members of the Lists-within-Project container `pid`. -/
def listsInProject (db : DB) (pid : Nat) : List ListItem :=
  db.lists.filter (fun l => l.project_id = pid)

/-- `select(func.count(models.List.id)).filter(models.List.project_id == project_id)`. -/
def countListsInProject (db : DB) (pid : Nat) : Nat :=
  (listsInProject db pid).length

/-- Position multiset of the Tasks container `lid`. -/
def taskPositions (db : DB) (lid : Nat) : List Int :=
  (tasksInList db lid).map (fun t => t.position)

/-- Position multiset of the Lists container `pid`. -/
def listPositions (db : DB) (pid : Nat) : List Int :=
  (listsInProject db pid).map (fun l => l.position)

/-- The list `[0, 1, ..., n-1]` over `Int`. -/
def rangeInt (n : Nat) : List Int :=
  List.map Int.ofNat (List.range n)

/-- The density invariant for a Tasks container: the positions of its N
members are exactly `{0, ..., N-1}` (as a multiset, so no gaps and no
duplicates). -/
def DenseTasks (db : DB) (lid : Nat) : Prop :=
  List.Perm (taskPositions db lid) (rangeInt (taskPositions db lid).length)

/-- The density invariant for a Lists container. -/
def DenseLists (db : DB) (pid : Nat) : Prop :=
  List.Perm (listPositions db pid) (rangeInt (listPositions db pid).length)

instance (db : DB) (lid : Nat) : Decidable (DenseTasks db lid) :=
  inferInstanceAs (Decidable (List.Perm _ _))

instance (db : DB) (pid : Nat) : Decidable (DenseLists db pid) :=
  inferInstanceAs (Decidable (List.Perm _ _))

/-- `create_task` (`routers/tasks.py`, POST /tasks/): verify the list
exists, count the tasks in it, append the new task at position = count.
`newId` stands for the autoincremented primary key, which is produced by
the database layer and not by the handler. -/
def create_task (db : DB) (newId : Nat) (title : String)
    (description : Option String) (list_id : Nat) :
    Except ApiError (DB × Task) :=
  match findList db list_id with
  | none => .error .notFound
  | some _ =>
    let max_position : Int := countTasksInList db list_id
    let db_task : Task :=
      { id := newId, title := title, description := description,
        list_id := list_id, position := max_position }
    .ok ({ db with tasks := db.tasks ++ [db_task] }, db_task)

/-- `create_list` (`routers/lists.py`, POST /lists/): verify the project
exists, count the lists in it, append the new list at position = count. -/
def create_list (db : DB) (newId : Nat) (name : String) (project_id : Nat) :
    Except ApiError (DB × ListItem) :=
  match findProject db project_id with
  | none => .error .notFound
  | some _ =>
    let max_position : Int := countListsInProject db project_id
    let db_list : ListItem :=
      { id := newId, name := name, project_id := project_id,
        position := max_position }
    .ok ({ db with lists := db.lists ++ [db_list] }, db_list)

/-- `delete_task` (`routers/tasks.py`, DELETE /tasks/{id}): remove the
task, then decrement the position of every remaining task of the same
list whose position exceeds the removed one. -/
def delete_task (db : DB) (tid : Nat) : Except ApiError DB :=
  match findTask db tid with
  | none => .error .notFound
  | some db_task =>
    let remaining := db.tasks.filter (fun t => ¬ t.id = tid)
    let tasks' := remaining.map (fun t =>
      if t.list_id = db_task.list_id ∧ db_task.position < t.position then
        { t with position := t.position - 1 }
      else t)
    .ok { db with tasks := tasks' }

/-- `delete_list` (`routers/lists.py`, DELETE /lists/{id}): remove the
list; the ORM cascade (`models.py`: `cascade="all, delete-orphan"` on
`List.tasks`) also removes its tasks.  Note: no position compaction is
performed on the sibling lists. -/
def delete_list (db : DB) (lid : Nat) : Except ApiError DB :=
  match findList db lid with
  | none => .error .notFound
  | some _ =>
    .ok { db with
          lists := db.lists.filter (fun l => ¬ l.id = lid),
          tasks := db.tasks.filter (fun t => ¬ t.list_id = lid) }

/-- `delete_project` (`routers/projects.py`, DELETE /projects/{id}):
remove the project; the ORM cascade (`models.py`: `Project.lists` and
`List.tasks`) also removes its lists and their tasks. -/
def delete_project (db : DB) (pid : Nat) : Except ApiError DB :=
  match findProject db pid with
  | none => .error .notFound
  | some _ =>
    let deadLists := db.lists.filter (fun l => l.project_id = pid)
    .ok { projects := db.projects.filter (fun p => ¬ p.id = pid),
          lists := db.lists.filter (fun l => ¬ l.project_id = pid),
          tasks := db.tasks.filter (fun t =>
            ¬ deadLists.any (fun l => l.id = t.list_id)) }

/-- `update_task` (`routers/tasks.py`, PUT /tasks/{id}): update title
and/or description when provided (`TaskUpdate` has both fields optional);
`None` fields are left as they were. -/
def update_task (db : DB) (tid : Nat) (title : Option String)
    (description : Option String) : Except ApiError DB :=
  match findTask db tid with
  | none => .error .notFound
  | some _ =>
    .ok { db with tasks := db.tasks.map (fun t =>
      if t.id = tid then
        { t with
          title := match title with | some s => s | none => t.title,
          description := match description with
            | some s => some s | none => t.description }
      else t) }

/-- `reposition_task` (`routers/tasks.py`, POST /tasks/{id}/reposition):
validate `0 <= new_position <= count - 1` (count over the task's own
list, `or 1` mirrors the Python falsy-count fallback), no-op when the
position is unchanged, otherwise shift the contiguous block between the
old and new position by one and place the task at `new_position`. -/
def reposition_task (db : DB) (tid : Nat) (new_position : Int) :
    Except ApiError DB :=
  match findTask db tid with
  | none => .error .notFound
  | some db_task =>
    let list_id := db_task.list_id
    let old_position := db_task.position
    let cnt := countTasksInList db list_id
    let max_position : Int := (if cnt = 0 then 1 else (cnt : Int)) - 1
    if new_position < 0 ∨ max_position < new_position then
      .error .invalidPosition
    else if old_position = new_position then
      .ok db
    else
      let shifted := db.tasks.map (fun t =>
        if old_position < new_position then
          if t.list_id = list_id ∧ old_position < t.position ∧
              t.position ≤ new_position ∧ ¬ t.id = tid then
            { t with position := t.position - 1 }
          else t
        else
          if t.list_id = list_id ∧ new_position ≤ t.position ∧
              t.position < old_position ∧ ¬ t.id = tid then
            { t with position := t.position + 1 }
          else t)
      .ok { db with tasks := shifted.map (fun t =>
        if t.id = tid then { t with position := new_position } else t) }

/-- `move_task` (`routers/tasks.py`, POST /tasks/{id}/move): verify task
and target list exist, validate `0 <= new_position <= count(target)`
(count over the target list before the move), then either rotate within
the same list (no-op when the position is unchanged) or close the gap in
the source list and open a slot in the target list, finally setting the
task's list and position. -/
def move_task (db : DB) (tid : Nat) (new_list_id : Nat)
    (new_position : Int) : Except ApiError DB :=
  match findTask db tid with
  | none => .error .notFound
  | some db_task =>
    match findList db new_list_id with
    | none => .error .notFound
    | some _ =>
      let old_list_id := db_task.list_id
      let old_position := db_task.position
      let max_position : Int := countTasksInList db new_list_id
      if new_position < 0 ∨ max_position < new_position then
        .error .invalidPosition
      else if old_list_id = new_list_id then
        if old_position = new_position then
          .ok db
        else
          let shifted := db.tasks.map (fun t =>
            if old_position < new_position then
              if t.list_id = old_list_id ∧ old_position < t.position ∧
                  t.position ≤ new_position ∧ ¬ t.id = tid then
                { t with position := t.position - 1 }
              else t
            else
              if t.list_id = old_list_id ∧ new_position ≤ t.position ∧
                  t.position < old_position ∧ ¬ t.id = tid then
                { t with position := t.position + 1 }
              else t)
          .ok { db with tasks := shifted.map (fun t =>
            if t.id = tid then
              { t with list_id := new_list_id, position := new_position }
            else t) }
      else
        let shiftedOld := db.tasks.map (fun t =>
          if t.list_id = old_list_id ∧ old_position < t.position ∧
              ¬ t.id = tid then
            { t with position := t.position - 1 }
          else t)
        let shiftedNew := shiftedOld.map (fun t =>
          if t.list_id = new_list_id ∧ new_position ≤ t.position ∧
              ¬ t.id = tid then
            { t with position := t.position + 1 }
          else t)
        .ok { db with tasks := shiftedNew.map (fun t =>
          if t.id = tid then
            { t with list_id := new_list_id, position := new_position }
          else t) }

/-- The pre-pagination selection of `get_tasks` (`routers/tasks.py`, GET
/tasks/): `if list_id:` — a `None` or `0` filter argument applies no
filter. -/
def tasksQuery (db : DB) (list_id : Option Nat) : List Task :=
  match list_id with
  | some lid => if ¬ lid = 0 then db.tasks.filter (fun t => t.list_id = lid) else db.tasks
  | none => db.tasks

/-- `get_tasks`: selection, then order by position, then offset/limit. -/
def get_tasks (db : DB) (list_id : Option Nat) (skip lim : Nat) : List Task :=
  (((tasksQuery db list_id).mergeSort (fun a b => a.position ≤ b.position)).drop skip).take lim

/-- The pre-pagination selection of `get_lists` (`routers/lists.py`, GET
/lists/): `if project_id:` — a `None` or `0` filter argument applies no
filter. -/
def listsQuery (db : DB) (project_id : Option Nat) : List ListItem :=
  match project_id with
  | some pid => if ¬ pid = 0 then db.lists.filter (fun l => l.project_id = pid) else db.lists
  | none => db.lists

/-- `get_lists`: selection, then order by position, then offset/limit. -/
def get_lists (db : DB) (project_id : Option Nat) (skip lim : Nat) : List ListItem :=
  (((listsQuery db project_id).mergeSort (fun a b => a.position ≤ b.position)).drop skip).take lim

end TaskFlow

namespace TaskFlow

/-- Helper: the task found by id is a member of its own container. -/
theorem mem_tasksInList_of_findTask {db : DB} {tid : Nat} {t : Task}
    (ht : findTask db tid = some t) : t ∈ tasksInList db t.list_id := by
  have hmem : t ∈ db.tasks := List.mem_of_find?_eq_some ht
  simp [tasksInList, List.mem_filter, hmem]

/-- Helper: the container of a task found by id is nonempty. -/
theorem countTasksInList_pos {db : DB} {tid : Nat} {t : Task}
    (ht : findTask db tid = some t) : 0 < countTasksInList db t.list_id := by
  have := mem_tasksInList_of_findTask ht
  unfold countTasksInList
  exact List.length_pos.mpr (fun h => by simp [h] at this)

/-- C8: for both listing operations, a filter argument that is omitted
(`None`) or equal to `0` applies no container filter: the pre-pagination
selection is the whole table, and the call with filter `0` returns
exactly what the call with no filter returns. -/
theorem C8_zero_filter_lists_everything :
    ∀ (db : DB) (skip lim : Nat),
      tasksQuery db none = db.tasks ∧
      tasksQuery db (some 0) = db.tasks ∧
      get_tasks db (some 0) skip lim = get_tasks db none skip lim ∧
      listsQuery db none = db.lists ∧
      listsQuery db (some 0) = db.lists ∧
      get_lists db (some 0) skip lim = get_lists db none skip lim := by
  intro db skip lim
  exact ⟨rfl, rfl, rfl, rfl, rfl, rfl⟩

/-- C6: inserting a task (resp. list) into an existing container with N
members appends the new row with position `N`, leaving every existing
row untouched; inserting under a missing parent container fails with
`NotFound` and creates nothing. -/
theorem C6_insert_appends (db : DB) (newId : Nat) (ti nm : String)
    (d : Option String) (lid lidM pid pidM : Nat) (l0 : ListItem) (p0 : Project)
    (hl : findList db lid = some l0) (hlM : findList db lidM = none)
    (hp : findProject db pid = some p0) (hpM : findProject db pidM = none) :
    create_task db newId ti d lid =
      .ok ({ db with tasks := db.tasks ++
              [⟨newId, ti, d, lid, (countTasksInList db lid : Int)⟩] },
            ⟨newId, ti, d, lid, (countTasksInList db lid : Int)⟩) ∧
    create_task db newId ti d lidM = .error .notFound ∧
    create_list db newId nm pid =
      .ok ({ db with lists := db.lists ++
              [⟨newId, nm, pid, (countListsInProject db pid : Int)⟩] },
            ⟨newId, nm, pid, (countListsInProject db pid : Int)⟩) ∧
    create_list db newId nm pidM = .error .notFound := by
  refine ⟨?_, ?_, ?_, ?_⟩
  · simp only [create_task, hl]
  · simp only [create_task, hlM]
  · simp only [create_list, hp]
  · simp only [create_list, hpM]

/-- Witness for C6 at a concrete database. -/
theorem C6_insert_appends_witness :
    create_task ⟨[⟨1, "P"⟩], [⟨5, "L", 1, 0⟩], [⟨7, "A", none, 5, 0⟩]⟩ 9 "B" none 5 =
      .ok (⟨[⟨1, "P"⟩], [⟨5, "L", 1, 0⟩],
            [⟨7, "A", none, 5, 0⟩, ⟨9, "B", none, 5, 1⟩]⟩,
           ⟨9, "B", none, 5, 1⟩) ∧
    create_task ⟨[⟨1, "P"⟩], [⟨5, "L", 1, 0⟩], [⟨7, "A", none, 5, 0⟩]⟩ 9 "B" none 6 =
      .error .notFound ∧
    create_list ⟨[⟨1, "P"⟩], [⟨5, "L", 1, 0⟩], [⟨7, "A", none, 5, 0⟩]⟩ 9 "M" 1 =
      .ok (⟨[⟨1, "P"⟩], [⟨5, "L", 1, 0⟩, ⟨9, "M", 1, 1⟩],
            [⟨7, "A", none, 5, 0⟩]⟩,
           ⟨9, "M", 1, 1⟩) ∧
    create_list ⟨[⟨1, "P"⟩], [⟨5, "L", 1, 0⟩], [⟨7, "A", none, 5, 0⟩]⟩ 9 "M" 2 =
      .error .notFound := by
  have h := C6_insert_appends ⟨[⟨1, "P"⟩], [⟨5, "L", 1, 0⟩], [⟨7, "A", none, 5, 0⟩]⟩
    9 "B" "M" none 5 6 1 2 ⟨5, "L", 1, 0⟩ ⟨1, "P"⟩ (by decide) (by decide)
    (by decide) (by decide)
  simpa using h

/-- C10: a task update rewrites only the targeted task's title and
description (an omitted field keeps its previous value); its id, list
and position, every other task, and the other tables are unchanged. -/
theorem C10_update_task_frame (db : DB) (tid : Nat) (t : Task)
    (newTitle newDesc : Option String)
    (ht : findTask db tid = some t) :
    ∃ db', update_task db tid newTitle newDesc = .ok db' ∧
      db'.projects = db.projects ∧ db'.lists = db.lists ∧
      List.Forall₂ (fun u v =>
        v.id = u.id ∧ v.list_id = u.list_id ∧ v.position = u.position ∧
        (¬ u.id = tid → v = u) ∧
        (u.id = tid →
          v.title = (match newTitle with | some s => s | none => u.title) ∧
          v.description =
            (match newDesc with | some s => some s | none => u.description)))
        db.tasks db'.tasks := by
  have heq : update_task db tid newTitle newDesc =
      .ok { db with tasks := db.tasks.map (fun u =>
        if u.id = tid then
          { u with
            title := match newTitle with | some s => s | none => u.title,
            description := match newDesc with
              | some s => some s | none => u.description }
        else u) } := by
    simp only [update_task, ht]
  refine ⟨_, heq, rfl, rfl, ?_⟩
  rw [List.forall₂_map_right_iff, List.forall₂_same]
  intro u _
  by_cases h : u.id = tid <;> simp [h]

/-- Witness for C10 at a concrete database. -/
theorem C10_update_task_frame_witness :
    ∃ db', update_task ⟨[], [], [⟨7, "A", some "d", 5, 0⟩]⟩ 7 (some "B") none = .ok db' ∧
      db'.projects = [] ∧ db'.lists = [] ∧
      List.Forall₂ (fun u v =>
        v.id = u.id ∧ v.list_id = u.list_id ∧ v.position = u.position ∧
        (¬ u.id = 7 → v = u) ∧
        (u.id = 7 →
          v.title = (match (some "B" : Option String) with | some s => s | none => u.title) ∧
          v.description =
            (match (none : Option String) with | some s => some s | none => u.description)))
        [⟨7, "A", some "d", 5, 0⟩] db'.tasks :=
  C10_update_task_frame ⟨[], [], [⟨7, "A", some "d", 5, 0⟩]⟩ 7
    ⟨7, "A", some "d", 5, 0⟩ (some "B") none (by decide)

/-- The database exhibiting the missing compaction in `delete_list`: one
project holding two lists at positions 0 and 1. -/
def twoListsDB : DB :=
  { projects := [⟨1, "P"⟩],
    lists := [⟨10, "L0", 1, 0⟩, ⟨20, "L1", 1, 1⟩],
    tasks := [] }

/-- C1: refuted by the code as written.  Starting from a dense state,
the successful `delete_list` of the list at position 0 leaves the
surviving single-member container with position multiset `{1}`, not
`{0}`: `delete_list` removes the row without compacting the sibling
positions, so the density invariant is violated. -/
theorem C1_density_broken_by_delete_list :
    DenseLists twoListsDB 1 ∧
    delete_list twoListsDB 10 =
      .ok { projects := [⟨1, "P"⟩], lists := [⟨20, "L1", 1, 1⟩], tasks := [] } ∧
    ¬ DenseLists
        { projects := [⟨1, "P"⟩], lists := [⟨20, "L1", 1, 1⟩], tasks := [] } 1 := by
  exact ⟨by decide, rfl, by decide⟩

/-- Second database for the delete-compaction claim. -/
def twoListsDB2 : DB :=
  { projects := [⟨2, "Q"⟩],
    lists := [⟨11, "A", 2, 0⟩, ⟨22, "B", 2, 1⟩],
    tasks := [] }

/-- C2: refuted for the Lists container kind.  Deleting the list at
position 0 from a 2-member container must leave the sibling formerly at
position 1 at position 0, but `delete_list` leaves it at position 1
(no decrement is applied to any sibling). -/
theorem C2_delete_list_does_not_compact :
    delete_list twoListsDB2 11 =
      .ok { projects := [⟨2, "Q"⟩], lists := [⟨22, "B", 2, 1⟩], tasks := [] } ∧
    listPositions
      { projects := [⟨2, "Q"⟩], lists := [⟨22, "B", 2, 1⟩], tasks := [] } 2 = [1] := by
  exact ⟨rfl, by decide⟩

end TaskFlow

namespace TaskFlow

/-- C5: with the task (and, for move, the target list) present, the
reposition rejects exactly the positions outside `[0, count-1]` (count
over the task's own list, including the task), the move rejects exactly
the positions outside `[0, count(target)]` (count over the target list
before insertion), and the handlers validate before mutating, so an
`InvalidPosition` result carries no state change. -/
theorem C5_boundary_rejection (db : DB) (tid newLid : Nat) (t : Task)
    (lB : ListItem) (p q : Int)
    (ht : findTask db tid = some t) (hB : findList db newLid = some lB) :
    (reposition_task db tid p = .error .invalidPosition ↔
      (p < 0 ∨ (countTasksInList db t.list_id : Int) - 1 < p)) ∧
    (move_task db tid newLid q = .error .invalidPosition ↔
      (q < 0 ∨ (countTasksInList db newLid : Int) < q)) := by
  have hcnt : ¬ countTasksInList db t.list_id = 0 :=
    Nat.pos_iff_ne_zero.mp (countTasksInList_pos ht)
  constructor
  · simp only [reposition_task, ht, hcnt, if_false]
    by_cases hv : p < 0 ∨ (countTasksInList db t.list_id : Int) - 1 < p
    · simp [hv]
    · simp only [hv, if_false, iff_false]
      by_cases he : t.position = p <;> simp [he]
  · simp only [move_task, ht, hB]
    by_cases hv : q < 0 ∨ (countTasksInList db newLid : Int) < q
    · simp [hv]
    · simp only [hv, if_false, iff_false]
      by_cases hsame : t.list_id = newLid
      · by_cases he : t.position = q <;> simp [hsame, he]
      · simp [hsame]

/-- Witness for C5 at a concrete database: position 5 is rejected by
both operations on a single-member list. -/
theorem C5_boundary_rejection_witness :
    (reposition_task ⟨[⟨1, "P"⟩], [⟨5, "L", 1, 0⟩], [⟨7, "A", none, 5, 0⟩]⟩ 7 5 =
        .error .invalidPosition ↔
      ((5 : Int) < 0 ∨
        (countTasksInList ⟨[⟨1, "P"⟩], [⟨5, "L", 1, 0⟩], [⟨7, "A", none, 5, 0⟩]⟩ 5 : Int) - 1 < 5)) ∧
    (move_task ⟨[⟨1, "P"⟩], [⟨5, "L", 1, 0⟩], [⟨7, "A", none, 5, 0⟩]⟩ 7 5 5 =
        .error .invalidPosition ↔
      ((5 : Int) < 0 ∨
        (countTasksInList ⟨[⟨1, "P"⟩], [⟨5, "L", 1, 0⟩], [⟨7, "A", none, 5, 0⟩]⟩ 5 : Int) < 5)) :=
  C5_boundary_rejection ⟨[⟨1, "P"⟩], [⟨5, "L", 1, 0⟩], [⟨7, "A", none, 5, 0⟩]⟩ 7 5
    ⟨7, "A", none, 5, 0⟩ ⟨5, "L", 1, 0⟩ 5 5 (by decide) (by decide)

/-- Referential integrity: every list's project exists and every task's
list exists. -/
def RefIntact (db : DB) : Prop :=
  (∀ l ∈ db.lists, ∃ p ∈ db.projects, p.id = l.project_id) ∧
  (∀ t ∈ db.tasks, ∃ l ∈ db.lists, l.id = t.list_id)

/-- C9: deleting a project removes every list referencing it and every
task owned by such a list; deleting a list removes every task
referencing it; and both deletions preserve referential integrity, so
no row survives with a dangling parent id. -/
theorem C9_cascade_deletion (db dbP dbL : DB) (pid lid : Nat)
    (h : RefIntact db)
    (hP : delete_project db pid = .ok dbP)
    (hL : delete_list db lid = .ok dbL) :
    (∀ l ∈ db.lists, l.project_id = pid → l ∉ dbP.lists) ∧
    (∀ t ∈ db.tasks,
      (∃ l ∈ db.lists, l.project_id = pid ∧ l.id = t.list_id) → t ∉ dbP.tasks) ∧
    RefIntact dbP ∧
    (∀ t ∈ db.tasks, t.list_id = lid → t ∉ dbL.tasks) ∧
    RefIntact dbL := by
  obtain ⟨hproj, htask⟩ := h
  -- extract the successful shapes
  cases hfp : findProject db pid with
  | none => rw [delete_project, hfp] at hP; exact absurd hP (by simp)
  | some pr =>
    rw [delete_project, hfp] at hP
    injection hP with hP
    cases hfl : findList db lid with
    | none => rw [delete_list, hfl] at hL; exact absurd hL (by simp)
    | some li =>
      rw [delete_list, hfl] at hL
      injection hL with hL
      subst hP hL
      refine ⟨?_, ?_, ⟨?_, ?_⟩, ?_, ⟨?_, ?_⟩⟩
      · intro l _ hlp hmem
        simp only [List.mem_filter, decide_eq_true_eq] at hmem
        exact hmem.2 hlp
      · intro t htmem ⟨l, hlmem, hlp, hlid⟩ hcontra
        simp only [List.mem_filter, List.any_eq_true, decide_eq_true_eq] at hcontra
        exact hcontra.2 ⟨l, by simp [List.mem_filter, hlmem, hlp], hlid⟩
      · intro l hmem
        simp only [List.mem_filter, decide_eq_true_eq] at hmem
        obtain ⟨p, hpmem, hpid⟩ := hproj l hmem.1
        refine ⟨p, ?_, hpid⟩
        simp only [List.mem_filter, decide_eq_true_eq]
        exact ⟨hpmem, fun hidp => hmem.2 (by rw [← hpid, hidp])⟩
      · intro t hmem
        simp only [List.mem_filter, List.any_eq_true, decide_eq_true_eq] at hmem
        obtain ⟨l, hlmem, hlid⟩ := htask t hmem.1
        refine ⟨l, ?_, hlid⟩
        simp only [List.mem_filter, decide_eq_true_eq]
        refine ⟨hlmem, fun hlp => hmem.2 ⟨l, ?_, hlid⟩⟩
        simp [List.mem_filter, hlmem, hlp]
      · intro t _ htl hcontra
        simp only [List.mem_filter, decide_eq_true_eq] at hcontra
        exact hcontra.2 htl
      · intro l hmem
        simp only [List.mem_filter, decide_eq_true_eq] at hmem
        exact hproj l hmem.1
      · intro t hmem
        simp only [List.mem_filter, decide_eq_true_eq] at hmem
        obtain ⟨l, hlmem, hlid⟩ := htask t hmem.1
        refine ⟨l, ?_, hlid⟩
        simp only [List.mem_filter, decide_eq_true_eq]
        exact ⟨hlmem, fun hid => hmem.2 (by rw [← hlid, hid])⟩

/-- Witness for C9 at a concrete database with one project, one list
and one task. -/
theorem C9_cascade_deletion_witness :
    (∀ l ∈ ([⟨5, "L", 1, 0⟩] : List ListItem), l.project_id = 1 →
      l ∉ (DB.mk [] [] [] : DB).lists) ∧
    (∀ t ∈ ([⟨7, "A", none, 5, 0⟩] : List Task),
      (∃ l ∈ ([⟨5, "L", 1, 0⟩] : List ListItem), l.project_id = 1 ∧ l.id = t.list_id) →
      t ∉ (DB.mk [] [] [] : DB).tasks) ∧
    RefIntact (DB.mk [] [] []) ∧
    (∀ t ∈ ([⟨7, "A", none, 5, 0⟩] : List Task), t.list_id = 5 →
      t ∉ (DB.mk [⟨1, "P"⟩] [] [] : DB).tasks) ∧
    RefIntact (DB.mk [⟨1, "P"⟩] [] []) := by
  have h := C9_cascade_deletion ⟨[⟨1, "P"⟩], [⟨5, "L", 1, 0⟩], [⟨7, "A", none, 5, 0⟩]⟩
    (DB.mk [] [] []) (DB.mk [⟨1, "P"⟩] [] []) 1 5
    (by constructor <;> decide) rfl rfl
  simpa using h

end TaskFlow

namespace TaskFlow

/-- Modelled from the claim's words (spec section 4.4), for comparison
with `reposition_task`: the minimal contiguous block shift.  The moved
item's position becomes `newP`; a sibling of the same list with position
in `(oldP, newP]` is decremented when `oldP < newP`; a sibling with
position in `[newP, oldP)` is incremented when `newP < oldP`; everything
else is unchanged. -/
def repositionBlockShift (tid lid : Nat) (oldP newP : Int) (u : Task) : Task :=
  if u.id = tid then { u with position := newP }
  else if u.list_id = lid ∧ oldP < newP ∧ oldP < u.position ∧ u.position ≤ newP then
    { u with position := u.position - 1 }
  else if u.list_id = lid ∧ newP < oldP ∧ newP ≤ u.position ∧ u.position < oldP then
    { u with position := u.position + 1 }
  else u

/-- Helper: `reposition_task` computes the contiguous block shift. -/
theorem reposition_eq_blockShift (db : DB) (tid : Nat) (t : Task) (newP : Int)
    (ht : findTask db tid = some t)
    (h0 : 0 ≤ newP) (h1 : newP ≤ (countTasksInList db t.list_id : Int) - 1) :
    reposition_task db tid newP =
      .ok (if t.position = newP then db
           else { db with
                  tasks := db.tasks.map
                             (repositionBlockShift tid t.list_id t.position newP) }) := by
  have hcnt : ¬ countTasksInList db t.list_id = 0 :=
    Nat.pos_iff_ne_zero.mp (countTasksInList_pos ht)
  have hvalid : ¬ (newP < 0 ∨ (countTasksInList db t.list_id : Int) - 1 < newP) := by
    push_neg
    exact ⟨h0, h1⟩
  simp only [reposition_task, ht, hcnt, if_false, hvalid]
  by_cases he : t.position = newP
  · simp [he]
  · simp only [he, if_false, if_neg he]
    congr 1
    rw [List.map_map]
    congr 1
    apply List.map_congr_left
    intro u _
    simp only [Function.comp_apply, repositionBlockShift]
    by_cases hid : u.id = tid
    · by_cases hlt : t.position < newP <;> simp [hlt, hid]
    · by_cases hlt : t.position < newP
      · by_cases hl : u.list_id = t.list_id
        · by_cases ha : t.position < u.position
          · by_cases hb : u.position ≤ newP
            · simp [hlt, hid, hl, ha, hb, lt_asymm hlt]
            · simp [hlt, hid, hl, ha, hb, lt_asymm hlt]
          · simp [hlt, hid, hl, ha, lt_asymm hlt]
        · simp [hlt, hid, hl]
      · have hgt : newP < t.position :=
          lt_of_le_of_ne (not_lt.mp hlt) (fun hx => he hx.symm)
        by_cases hl : u.list_id = t.list_id
        · by_cases ha : newP ≤ u.position
          · by_cases hb : u.position < t.position
            · simp [hlt, hid, hl, ha, hb, hgt]
            · simp [hlt, hid, hl, ha, hb, hgt]
          · simp [hlt, hid, hl, ha, hgt]
        · simp [hlt, hid, hl]

/-- C3: on a dense list, repositioning a task to a valid position is
exactly the minimal contiguous block shift of the claim, and a
reposition to the current position returns the state unchanged. -/
theorem C3_reposition_is_block_shift (db : DB) (tid : Nat) (t : Task) (newP : Int)
    (ht : findTask db tid = some t)
    (_hdense : DenseTasks db t.list_id)
    (h0 : 0 ≤ newP) (h1 : newP ≤ (countTasksInList db t.list_id : Int) - 1) :
    reposition_task db tid newP =
      .ok (if t.position = newP then db
           else { db with
                  tasks := db.tasks.map
                             (repositionBlockShift tid t.list_id t.position newP) }) :=
  reposition_eq_blockShift db tid t newP ht h0 h1

/-- Concrete scenario DB of the claim: tasks A, B, C at positions 0, 1, 2. -/
def tripleDB : DB :=
  { projects := [⟨1, "P"⟩],
    lists := [⟨1, "L", 1, 0⟩],
    tasks := [⟨1, "A", none, 1, 0⟩, ⟨2, "B", none, 1, 1⟩, ⟨3, "C", none, 1, 2⟩] }

/-- Witness for C3: the claim's own scenario, reposition(B, 0) on
[A@0, B@1, C@2] yields B@0, A@1, C@2. -/
theorem C3_reposition_is_block_shift_witness :
    reposition_task tripleDB 2 0 =
      .ok { projects := [⟨1, "P"⟩], lists := [⟨1, "L", 1, 0⟩],
            tasks := [⟨1, "A", none, 1, 1⟩, ⟨2, "B", none, 1, 0⟩,
                      ⟨3, "C", none, 1, 2⟩] } :=
  (C3_reposition_is_block_shift tripleDB 2 ⟨2, "B", none, 1, 1⟩ 0
    (by decide) (by decide) (by decide) (by decide)).trans (by rfl)

end TaskFlow

namespace TaskFlow

/-- Helper: membership in `rangeInt n` gives the bounds. -/
theorem mem_rangeInt {x : Int} {n : Nat} (h : x ∈ rangeInt n) :
    0 ≤ x ∧ x < (n : Int) := by
  unfold rangeInt at h
  rw [List.mem_map] at h
  obtain ⟨i, hi, rfl⟩ := h
  rw [List.mem_range] at hi
  refine ⟨Int.ofNat_nonneg i, ?_⟩
  have hcast : (i : Int) < (n : Int) := by exact_mod_cast hi
  simpa using hcast

/-- Helper: `rangeInt n` has no duplicates. -/
theorem rangeInt_nodup (n : Nat) : (rangeInt n).Nodup := by
  unfold rangeInt
  refine (List.nodup_range n).map ?_
  intro a b hab
  simpa using hab

/-- Helper: a dense container has pairwise distinct positions. -/
theorem dense_taskPositions_nodup {db : DB} {lid : Nat}
    (hd : DenseTasks db lid) : (taskPositions db lid).Nodup :=
  hd.nodup_iff.mpr (rangeInt_nodup _)

/-- Helper: a member's position in a dense container is within bounds. -/
theorem dense_position_bounds {db : DB} {lid : Nat} {t : Task}
    (hd : DenseTasks db lid) (htm : t ∈ tasksInList db lid) :
    0 ≤ t.position ∧ t.position < (countTasksInList db lid : Int) := by
  have hmem : t.position ∈ taskPositions db lid :=
    List.mem_map_of_mem _ htm
  have hb := mem_rangeInt (hd.mem_iff.mp hmem)
  simpa [taskPositions, countTasksInList] using hb

/-- Helper: find-by-id over a table rewritten by an id-preserving map. -/
theorem findTask_map {db : DB} {f : Task → Task}
    (hf : ∀ u, (f u).id = u.id) (tid : Nat) :
    findTask { db with tasks := db.tasks.map f } tid =
      Option.map f (findTask db tid) := by
  unfold findTask
  have hpred : ((fun t : Task => decide (t.id = tid)) ∘ f) =
      (fun t : Task => decide (t.id = tid)) := by
    funext u
    simp [Function.comp_apply, hf u]
  rw [List.find?_map, hpred]

/-- Helper: member count is unchanged by a container-preserving map. -/
theorem countTasksInList_map {db : DB} {f : Task → Task}
    (hf : ∀ u, (f u).list_id = u.list_id) (lid : Nat) :
    countTasksInList { db with tasks := db.tasks.map f } lid =
      countTasksInList db lid := by
  unfold countTasksInList tasksInList
  rw [List.filter_map, List.length_map]
  congr 1
  apply List.filter_congr
  intro u _
  simp [Function.comp_apply, hf u]

/-- Helper: the block shift from `P` to `Q` followed by the block shift
from `Q` back to `P` restores any task whose data is consistent with the
move (the moved task sat at `P`; no other same-container task sat at `P`). -/
theorem blockShift_inverse (tid lid : Nat) (P Q : Int) (u : Task)
    (hPQ : ¬ P = Q)
    (hu1 : u.id = tid → u.position = P)
    (hu2 : ¬ u.id = tid → u.list_id = lid → ¬ u.position = P) :
    repositionBlockShift tid lid Q P (repositionBlockShift tid lid P Q u) = u := by
  obtain ⟨uid, uti, ud, ulid, upos⟩ := u
  unfold repositionBlockShift
  by_cases hid : uid = tid
  · have hP : upos = P := hu1 hid
    subst hP
    simp [hid]
  · by_cases hl : ulid = lid
    · have hP : ¬ upos = P := hu2 hid hl
      rcases lt_or_gt_of_ne hPQ with hlt | hgt
      · by_cases hband : P < upos ∧ upos ≤ Q
        · have h1 : P ≤ upos - 1 := by omega
          have h2 : upos - 1 < Q := by omega
          have h3 : upos - 1 + 1 = upos := by omega
          simp [hid, hl, hlt, hband.1, hband.2, lt_asymm hlt, h1, h2, h3]
        · have h4 : ¬ (P ≤ upos ∧ upos < Q) := by omega
          simp [hid, hl, hlt, lt_asymm hlt, hband, h4]
      · by_cases hband : Q ≤ upos ∧ upos < P
        · have h1 : Q < upos + 1 := by omega
          have h2 : upos + 1 ≤ P := by omega
          have h3 : upos + 1 - 1 = upos := by omega
          simp [hid, hl, hgt, hband.1, hband.2, lt_asymm hgt, h1, h2, h3]
        · have h4 : ¬ (Q < upos ∧ upos ≤ P) := by omega
          simp [hid, hl, hgt, lt_asymm hgt, hband, h4]
    · simp [hid, hl]

/-- C7: on a dense list with distinct row ids, repositioning a task from
its position `P` to a valid `Q` and then from `Q` back to `P` restores
the entire database state. -/
theorem C7_reposition_round_trip (db : DB) (tid : Nat) (t : Task) (q : Int)
    (ht : findTask db tid = some t)
    (hdense : DenseTasks db t.list_id)
    (hids : (db.tasks.map (fun u => u.id)).Nodup)
    (hq0 : 0 ≤ q) (hq1 : q ≤ (countTasksInList db t.list_id : Int) - 1) :
    ∃ db1, reposition_task db tid q = .ok db1 ∧
      reposition_task db1 tid t.position = .ok db := by
  have htid : t.id = tid := by
    have := List.find?_some ht
    simpa using this
  have htmem : t ∈ db.tasks := List.mem_of_find?_eq_some ht
  have htl : t ∈ tasksInList db t.list_id := mem_tasksInList_of_findTask ht
  obtain ⟨hp0, hp1⟩ := dense_position_bounds hdense htl
  have hp1' : t.position ≤ (countTasksInList db t.list_id : Int) - 1 := by omega
  by_cases he : t.position = q
  · refine ⟨db, ?_, ?_⟩
    · rw [reposition_eq_blockShift db tid t q ht hq0 hq1]
      simp [he]
    · rw [reposition_eq_blockShift db tid t t.position ht hp0 hp1']
      simp
  · have hfid : ∀ u,
        ((repositionBlockShift tid t.list_id t.position q) u).id = u.id := by
      intro u
      unfold repositionBlockShift
      split_ifs <;> rfl
    have hflid : ∀ u,
        ((repositionBlockShift tid t.list_id t.position q) u).list_id = u.list_id := by
      intro u
      unfold repositionBlockShift
      split_ifs <;> rfl
    have h1 : reposition_task db tid q =
        .ok { db with
              tasks := db.tasks.map
                         (repositionBlockShift tid t.list_id t.position q) } := by
      rw [reposition_eq_blockShift db tid t q ht hq0 hq1]
      simp [he]
    refine ⟨_, h1, ?_⟩
    have hft : repositionBlockShift tid t.list_id t.position q t =
        { t with position := q } := by
      unfold repositionBlockShift
      simp [htid]
    have ht1 : findTask
        { db with
          tasks := db.tasks.map (repositionBlockShift tid t.list_id t.position q) } tid =
        some { t with position := q } := by
      rw [findTask_map hfid, ht]
      simp [hft]
    have hcnt1 : countTasksInList
        { db with
          tasks := db.tasks.map (repositionBlockShift tid t.list_id t.position q) }
        t.list_id = countTasksInList db t.list_id :=
      countTasksInList_map hflid _
    have h2 := reposition_eq_blockShift
      { db with
        tasks := db.tasks.map (repositionBlockShift tid t.list_id t.position q) }
      tid { t with position := q } t.position ht1 hp0 (by rw [hcnt1]; exact hp1')
    rw [h2]
    have hne : ¬ ({ t with position := q } : Task).position = t.position := by
      simpa using fun hx => he hx.symm
    simp only [hne, if_false, if_neg hne]
    congr 1
    rw [List.map_map]
    have hpt : ∀ u ∈ db.tasks,
        (repositionBlockShift tid t.list_id q t.position ∘
          repositionBlockShift tid t.list_id t.position q) u = u := by
      intro u hu
      rw [Function.comp_apply]
      apply blockShift_inverse tid t.list_id t.position q u (fun hx => he hx)
      · intro hid
        have hut : u = t := List.inj_on_of_nodup_map hids hu htmem (by rw [hid, htid])
        rw [hut]
      · intro hid hl hpos
        have hnodup := dense_taskPositions_nodup hdense
        have hul : u ∈ tasksInList db t.list_id := by
          simp [tasksInList, List.mem_filter, hu, hl]
        have hut : u = t := List.inj_on_of_nodup_map hnodup hul htl hpos
        exact hid (by rw [hut, htid])
    have htasks : List.map (repositionBlockShift tid t.list_id q t.position ∘
          repositionBlockShift tid t.list_id t.position q) db.tasks = db.tasks :=
      (List.map_congr_left hpt).trans (List.map_id db.tasks)
    rw [htasks]

/-- Witness for C7: reposition B from 1 to 0 and back on [A@0, B@1, C@2]. -/
theorem C7_reposition_round_trip_witness :
    ∃ db1, reposition_task
        ⟨[⟨1, "P"⟩], [⟨1, "L", 1, 0⟩],
         [⟨1, "A", none, 1, 0⟩, ⟨2, "B", none, 1, 1⟩, ⟨3, "C", none, 1, 2⟩]⟩ 2 0 =
        .ok db1 ∧
      reposition_task db1 2 1 =
        .ok ⟨[⟨1, "P"⟩], [⟨1, "L", 1, 0⟩],
             [⟨1, "A", none, 1, 0⟩, ⟨2, "B", none, 1, 1⟩, ⟨3, "C", none, 1, 2⟩]⟩ :=
  C7_reposition_round_trip
    ⟨[⟨1, "P"⟩], [⟨1, "L", 1, 0⟩],
     [⟨1, "A", none, 1, 0⟩, ⟨2, "B", none, 1, 1⟩, ⟨3, "C", none, 1, 2⟩]⟩ 2
    ⟨2, "B", none, 1, 1⟩ 0 (by decide) (by decide) (by decide) (by decide) (by decide)

end TaskFlow

namespace TaskFlow

/-- Helper: `rangeInt` distributes over addition as a shifted append. -/
theorem rangeInt_add (a b : Nat) :
    rangeInt (a + b) = rangeInt a ++ (rangeInt b).map (fun x => x + (a : Int)) := by
  unfold rangeInt
  rw [List.range_add, List.map_append, List.map_map, List.map_map]
  congr 1
  apply List.map_congr_left
  intro i _
  simp only [Function.comp_apply, Int.ofNat_eq_coe]
  push_cast
  ring

/-- Helper: `rangeInt (s+1)` starts at 0. -/
theorem rangeInt_succ (s : Nat) :
    rangeInt (s + 1) = 0 :: (rangeInt s).map (fun x => x + 1) := by
  unfold rangeInt
  rw [List.range_succ_eq_map, List.map_cons, List.map_map, List.map_map]
  congr 1

/-- Helper: `k` is not a member of `rangeInt k`. -/
theorem not_mem_rangeInt_self (k : Nat) : (k : Int) ∉ rangeInt k := by
  intro h
  have := (mem_rangeInt h).2
  omega

/-- Helper: the tail decomposition of `rangeInt` around the value `k`. -/
theorem rangeInt_split (k s : Nat) :
    rangeInt (k + (s + 1)) =
      rangeInt k ++ ((k : Int) :: (rangeInt s).map (fun x => x + ((k : Int) + 1))) := by
  rw [rangeInt_add, rangeInt_succ, List.map_cons, List.map_map]
  simp only [zero_add]
  congr 2
  apply List.map_congr_left
  intro x _
  simp only [Function.comp_apply]
  ring

/-- Helper: closing the gap after removing `k` from `{0,...,n-1}` yields
`{0,...,n-2}`. -/
theorem compact_erase_rangeInt {n k : Nat} (hk : k < n) :
    ((rangeInt n).erase (k : Int)).map
      (fun x => if (k : Int) < x then x - 1 else x) = rangeInt (n - 1) := by
  obtain ⟨s, rfl⟩ : ∃ s, n = k + (s + 1) := ⟨n - k - 1, by omega⟩
  rw [rangeInt_split, List.erase_append_right _ (not_mem_rangeInt_self k),
    List.erase_cons_head, List.map_append, List.map_map]
  have h1 : List.map (fun x => if (k : Int) < x then x - 1 else x) (rangeInt k) =
      rangeInt k := by
    conv_rhs => rw [← List.map_id (rangeInt k)]
    apply List.map_congr_left
    intro x hx
    have := (mem_rangeInt hx).2
    simp only [id]
    rw [if_neg (by omega)]
  have h2 : List.map ((fun x => if (k : Int) < x then x - 1 else x) ∘
      (fun x => x + ((k : Int) + 1))) (rangeInt s) =
      List.map (fun x => x + (k : Int)) (rangeInt s) := by
    apply List.map_congr_left
    intro x hx
    have := (mem_rangeInt hx).1
    simp only [Function.comp_apply]
    rw [if_pos (by omega)]
    ring
  rw [h1, h2, ← rangeInt_add]
  congr 1

/-- Helper: opening a slot at `q` in `{0,...,n-1}` and inserting `q`
yields `{0,...,n}`. -/
theorem openSlot_rangeInt {n q : Nat} (hq : q ≤ n) :
    List.Perm
      ((q : Int) :: (rangeInt n).map (fun x => if (q : Int) ≤ x then x + 1 else x))
      (rangeInt (n + 1)) := by
  obtain ⟨s, rfl⟩ : ∃ s, n = q + s := ⟨n - q, by omega⟩
  rw [rangeInt_add, List.map_append, List.map_map]
  have h1 : List.map (fun x => if (q : Int) ≤ x then x + 1 else x) (rangeInt q) =
      rangeInt q := by
    conv_rhs => rw [← List.map_id (rangeInt q)]
    apply List.map_congr_left
    intro x hx
    have := (mem_rangeInt hx).2
    simp only [id]
    rw [if_neg (by omega)]
  have h2 : List.map ((fun x => if (q : Int) ≤ x then x + 1 else x) ∘
      (fun x => x + (q : Int))) (rangeInt s) =
      List.map (fun x => x + ((q : Int) + 1)) (rangeInt s) := by
    apply List.map_congr_left
    intro x hx
    have := (mem_rangeInt hx).1
    simp only [Function.comp_apply]
    rw [if_pos (by omega)]
    ring
  rw [h1, h2]
  have hr : rangeInt (q + s + 1) =
      rangeInt q ++ ((q : Int) :: (rangeInt s).map (fun x => x + ((q : Int) + 1))) := by
    have hqs : q + s + 1 = q + (s + 1) := by omega
    rw [hqs, rangeInt_split]
  rw [hr]
  exact (List.perm_middle).symm

end TaskFlow

namespace TaskFlow

/-- Modelled from the claim's words (spec section 4.5), for comparison
with `move_task`: the cross-container move sets the moved task's list to
`dstLid` and its position to `newP`, decrements the source-container
siblings above `oldP`, and increments the target-container members at or
above `newP`. -/
def moveCrossShift (tid srcLid dstLid : Nat) (oldP newP : Int) (u : Task) : Task :=
  if u.id = tid then { u with list_id := dstLid, position := newP }
  else if u.list_id = srcLid ∧ oldP < u.position then
    { u with position := u.position - 1 }
  else if u.list_id = dstLid ∧ newP ≤ u.position then
    { u with position := u.position + 1 }
  else u

/-- Helper: a successful cross-list `move_task` is the pointwise
`moveCrossShift` over the tasks table. -/
theorem move_eq_crossShift (db : DB) (tid B : Nat) (t : Task) (lB : ListItem)
    (p : Int)
    (ht : findTask db tid = some t) (hB : findList db B = some lB)
    (hAB : ¬ t.list_id = B)
    (hp0 : 0 ≤ p) (hp1 : p ≤ (countTasksInList db B : Int)) :
    move_task db tid B p =
      .ok { db with
            tasks := db.tasks.map (moveCrossShift tid t.list_id B t.position p) } := by
  have hvalid : ¬ (p < 0 ∨ (countTasksInList db B : Int) < p) := by
    push_neg
    exact ⟨hp0, hp1⟩
  simp only [move_task, ht, hB, hvalid, if_false, hAB]
  congr 1
  rw [List.map_map, List.map_map]
  congr 1
  apply List.map_congr_left
  intro u _
  simp only [Function.comp_apply, moveCrossShift]
  by_cases hid : u.id = tid
  · simp [hid]
  · by_cases hsrc : u.list_id = t.list_id
    · have hnotB : ¬ u.list_id = B := by rw [hsrc]; exact hAB
      by_cases hpos : t.position < u.position
      · simp [hid, hsrc, hnotB, hpos, hAB]
      · simp [hid, hsrc, hnotB, hpos, hAB]
    · have hBA : ¬ B = t.list_id := fun hx => hAB hx.symm
      by_cases hdst : u.list_id = B
      · by_cases hpos : p ≤ u.position
        · simp [hid, hsrc, hdst, hpos, hBA]
        · simp [hid, hsrc, hdst, hpos, hBA]
      · simp [hid, hsrc, hdst]

/-- Helper: removing the unique row with `t`'s id from a table is, up to
permutation, erasing `t`. -/
theorem filter_ne_id_perm_erase {l : List Task} {t : Task}
    (hnd : (l.map (fun u => u.id)).Nodup) (htm : t ∈ l) :
    List.Perm (l.filter (fun u => ¬ u.id = t.id)) (l.erase t) := by
  have hlnd : l.Nodup := hnd.of_map
  have hp : List.Perm l (t :: l.erase t) := List.perm_cons_erase htm
  have h1 := hp.filter (fun u => decide (¬ u.id = t.id))
  have htf : decide (¬ t.id = t.id) = false := by simp
  rw [List.filter_cons, htf] at h1
  simp only [Bool.false_eq_true, if_false] at h1
  have h2 : List.filter (fun u => decide (¬ u.id = t.id)) (l.erase t) = l.erase t := by
    rw [List.filter_eq_self]
    intro u hu
    have hne := ((hlnd.mem_erase_iff).mp hu).1
    have hul := ((hlnd.mem_erase_iff).mp hu).2
    simp only [decide_eq_true_eq]
    intro hide
    exact hne (List.inj_on_of_nodup_map hnd hul htm hide)
  rw [h2] at h1
  exact h1

/-- Helper: taking positions commutes with erasing a member, up to
permutation. -/
theorem map_position_erase_perm {l : List Task} {t : Task} (htm : t ∈ l) :
    List.Perm ((l.erase t).map (fun u => u.position))
      ((l.map (fun u => u.position)).erase t.position) := by
  have hp : List.Perm l (t :: l.erase t) := List.perm_cons_erase htm
  have h1 := hp.map (fun u => u.position)
  rw [List.map_cons] at h1
  have h2 := h1.erase t.position
  rw [List.erase_cons_head] at h2
  exact h2.symm

/-- Helper: erasing an element that fails the filter does not change the
filtered list, up to permutation. -/
theorem filter_erase_of_neg {l : List Task} {t : Task} (htm : t ∈ l)
    {q : Task → Bool} (hqt : q t = false) :
    List.Perm ((l.erase t).filter q) (l.filter q) := by
  have hp : List.Perm l (t :: l.erase t) := List.perm_cons_erase htm
  have h1 := hp.filter q
  rw [List.filter_cons, hqt] at h1
  simpa using h1.symm

/-- Helper: the members of a container after a pointwise table rewrite. -/
theorem tasksInList_map_eq (db : DB) (f : Task → Task) (lid : Nat) :
    tasksInList { db with tasks := db.tasks.map f } lid =
      (db.tasks.filter (fun u => (f u).list_id = lid)).map f := by
  unfold tasksInList
  rw [List.filter_map]
  rfl

end TaskFlow

namespace TaskFlow

/-- Helper: position lists and member counts agree in length. -/
theorem taskPositions_length (db : DB) (lid : Nat) :
    (taskPositions db lid).length = countTasksInList db lid :=
  List.length_map _ _

/-- Helper: `rangeInt n` has length `n`. -/
theorem rangeInt_length (n : Nat) : (rangeInt n).length = n := by
  unfold rangeInt
  rw [List.length_map, List.length_range]

/-- Helper: after a cross-container move, the source container holds the
old members except the moved task, with the gap above its old position
closed. -/
theorem taskPositions_move_src {db : DB} {tid B : Nat} {t : Task} {p : Int}
    (htmem : t ∈ db.tasks) (htid : t.id = tid) (hAB : ¬ t.list_id = B)
    (hids : (db.tasks.map (fun u => u.id)).Nodup) :
    List.Perm
      (taskPositions
        { db with
          tasks := db.tasks.map (moveCrossShift tid t.list_id B t.position p) }
        t.list_id)
      (((taskPositions db t.list_id).erase t.position).map
        (fun x => if t.position < x then x - 1 else x)) := by
  have htl : t ∈ tasksInList db t.list_id := by
    simp [tasksInList, List.mem_filter, htmem]
  unfold taskPositions
  rw [tasksInList_map_eq]
  have hpred : db.tasks.filter
      (fun u => (moveCrossShift tid t.list_id B t.position p u).list_id = t.list_id) =
      db.tasks.filter (fun u => ¬ u.id = t.id && u.list_id = t.list_id) := by
    apply List.filter_congr
    intro u _
    by_cases hid : u.id = tid
    · have : (moveCrossShift tid t.list_id B t.position p u).list_id = B := by
        unfold moveCrossShift
        simp [hid]
      simp [this, hAB, Ne.symm hAB, hid, htid]
    · have : (moveCrossShift tid t.list_id B t.position p u).list_id = u.list_id := by
        unfold moveCrossShift
        split_ifs <;> simp [hid]
      simp [this, hid, htid]
  rw [hpred]
  have hsplit : db.tasks.filter (fun u => ¬ u.id = t.id && u.list_id = t.list_id) =
      (tasksInList db t.list_id).filter (fun u => ¬ u.id = t.id) := by
    unfold tasksInList
    rw [List.filter_filter]
  rw [hsplit]
  have hndA : ((tasksInList db t.list_id).map (fun u => u.id)).Nodup := by
    refine List.Nodup.sublist ?_ hids
    exact (List.filter_sublist db.tasks).map _
  have hperm1 : List.Perm
      ((tasksInList db t.list_id).filter (fun u => ¬ u.id = t.id))
      ((tasksInList db t.list_id).erase t) :=
    filter_ne_id_perm_erase hndA htl
  have hcongr : List.map
      (fun u => (moveCrossShift tid t.list_id B t.position p u).position)
      ((tasksInList db t.list_id).filter (fun u => ¬ u.id = t.id)) =
      List.map (fun u => if t.position < u.position then u.position - 1 else u.position)
      ((tasksInList db t.list_id).filter (fun u => ¬ u.id = t.id)) := by
    apply List.map_congr_left
    intro u hu
    rw [List.mem_filter] at hu
    have hid : ¬ u.id = tid := by
      have := hu.2
      simp only [decide_eq_true_eq] at this
      rw [← htid]
      exact this
    have hlu : u.list_id = t.list_id := by
      have := (List.mem_filter.mp hu.1).2
      simpa using this
    unfold moveCrossShift
    by_cases hpos : t.position < u.position
    · simp [hid, hlu, hpos]
    · simp [hid, hlu, hpos, hAB]
  have hmm : List.map (fun u : Task => u.position)
      (List.map (moveCrossShift tid t.list_id B t.position p)
        ((tasksInList db t.list_id).filter (fun u => ¬ u.id = t.id))) =
      List.map (fun u => (moveCrossShift tid t.list_id B t.position p u).position)
        ((tasksInList db t.list_id).filter (fun u => ¬ u.id = t.id)) := by
    rw [List.map_map]
    rfl
  rw [hmm, hcongr]
  have hmm2 : List.map
      (fun u : Task => if t.position < u.position then u.position - 1 else u.position)
      ((tasksInList db t.list_id).filter (fun u => ¬ u.id = t.id)) =
      List.map (fun x : Int => if t.position < x then x - 1 else x)
        (List.map (fun u : Task => u.position)
          ((tasksInList db t.list_id).filter (fun u => ¬ u.id = t.id))) := by
    rw [List.map_map]
    rfl
  rw [hmm2]
  refine List.Perm.map _ ?_
  exact (hperm1.map _).trans (map_position_erase_perm htl)

/-- Helper: after a cross-container move, the target container holds its
old members shifted up at and above the insertion point, plus the moved
task at the new position. -/
theorem taskPositions_move_dst {db : DB} {tid B : Nat} {t : Task} {p : Int}
    (htmem : t ∈ db.tasks) (htid : t.id = tid) (hAB : ¬ t.list_id = B)
    (hids : (db.tasks.map (fun u => u.id)).Nodup) :
    List.Perm
      (taskPositions
        { db with
          tasks := db.tasks.map (moveCrossShift tid t.list_id B t.position p) }
        B)
      (p :: (taskPositions db B).map (fun x => if p ≤ x then x + 1 else x)) := by
  have hlnd : db.tasks.Nodup := hids.of_map
  unfold taskPositions
  rw [tasksInList_map_eq]
  have hpred : db.tasks.filter
      (fun u => (moveCrossShift tid t.list_id B t.position p u).list_id = B) =
      db.tasks.filter (fun u => u.id = t.id || u.list_id = B) := by
    apply List.filter_congr
    intro u _
    by_cases hid : u.id = tid
    · have hfl : (moveCrossShift tid t.list_id B t.position p u).list_id = B := by
        unfold moveCrossShift
        simp [hid]
      simp [hfl, hid, htid]
    · have hfl : (moveCrossShift tid t.list_id B t.position p u).list_id = u.list_id := by
        unfold moveCrossShift
        split_ifs <;> simp [hid]
      simp [hfl, hid, htid]
  rw [hpred]
  have hp : List.Perm db.tasks (t :: db.tasks.erase t) := List.perm_cons_erase htmem
  have h1 := hp.filter (fun u => decide (u.id = t.id) || decide (u.list_id = B))
  rw [List.filter_cons] at h1
  rw [if_pos (by simp)] at h1
  have h2 : List.filter (fun u => decide (u.id = t.id) || decide (u.list_id = B))
      (db.tasks.erase t) =
      List.filter (fun u => decide (u.list_id = B)) (db.tasks.erase t) := by
    apply List.filter_congr
    intro u hu
    have hne := ((hlnd.mem_erase_iff).mp hu).1
    have hul := ((hlnd.mem_erase_iff).mp hu).2
    have hidne : ¬ u.id = t.id := fun hide =>
      hne (List.inj_on_of_nodup_map hids hul htmem hide)
    simp [hidne]
  have h3 : List.Perm
      (List.filter (fun u => decide (u.list_id = B)) (db.tasks.erase t))
      (tasksInList db B) := by
    unfold tasksInList
    exact filter_erase_of_neg htmem (by simp [hAB])
  have hfilter : List.Perm
      (db.tasks.filter (fun u => u.id = t.id || u.list_id = B))
      (t :: tasksInList db B) := by
    refine h1.trans ?_
    rw [h2]
    exact h3.cons t
  have hmm : List.map (fun u : Task => u.position)
      (List.map (moveCrossShift tid t.list_id B t.position p)
        (db.tasks.filter (fun u => u.id = t.id || u.list_id = B))) =
      List.map (fun u => (moveCrossShift tid t.list_id B t.position p u).position)
        (db.tasks.filter (fun u => u.id = t.id || u.list_id = B)) := by
    rw [List.map_map]
    rfl
  rw [hmm]
  refine List.Perm.trans (List.Perm.map _ hfilter) ?_
  rw [List.map_cons]
  have hft : (moveCrossShift tid t.list_id B t.position p t).position = p := by
    unfold moveCrossShift
    simp [htid]
  rw [hft]
  refine List.Perm.cons p ?_
  have hcongr : List.map
      (fun u => (moveCrossShift tid t.list_id B t.position p u).position)
      (tasksInList db B) =
      List.map (fun u : Task => if p ≤ u.position then u.position + 1 else u.position)
      (tasksInList db B) := by
    apply List.map_congr_left
    intro u hu
    have hul : u ∈ db.tasks := (List.mem_filter.mp hu).1
    have hulB : u.list_id = B := by
      have := (List.mem_filter.mp hu).2
      simpa using this
    have hid : ¬ u.id = tid := by
      intro hide
      have hut : u = t := List.inj_on_of_nodup_map hids hul htmem (by rw [hide, htid])
      rw [hut] at hulB
      exact hAB hulB
    have hBA : ¬ B = t.list_id := fun hx => hAB hx.symm
    unfold moveCrossShift
    by_cases hpos : p ≤ u.position
    · simp [hid, hBA, hulB, hpos]
    · simp [hid, hBA, hulB, hpos]
  rw [hcongr]
  have hmm2 : List.map
      (fun u : Task => if p ≤ u.position then u.position + 1 else u.position)
      (tasksInList db B) =
      List.map (fun x : Int => if p ≤ x then x + 1 else x)
        (List.map (fun u : Task => u.position) (tasksInList db B)) := by
    rw [List.map_map]
    rfl
  rw [hmm2]

end TaskFlow

namespace TaskFlow

/-- C4: moving a task from its (dense) list A to a different (dense)
list B at a valid position yields exactly the claim's two-compaction
rewrite of the table; afterwards A has one member fewer and is dense, B
has one member more and is dense, and the moved task is found in B at
the new position. -/
theorem C4_move_conservation (db : DB) (tid B : Nat) (t : Task) (lB : ListItem)
    (p : Int)
    (ht : findTask db tid = some t) (hB : findList db B = some lB)
    (hAB : ¬ t.list_id = B)
    (hdA : DenseTasks db t.list_id) (hdB : DenseTasks db B)
    (hids : (db.tasks.map (fun u => u.id)).Nodup)
    (hp0 : 0 ≤ p) (hp1 : p ≤ (countTasksInList db B : Int)) :
    ∃ db', move_task db tid B p = .ok db' ∧
      db'.tasks = db.tasks.map (moveCrossShift tid t.list_id B t.position p) ∧
      countTasksInList db' t.list_id = countTasksInList db t.list_id - 1 ∧
      DenseTasks db' t.list_id ∧
      countTasksInList db' B = countTasksInList db B + 1 ∧
      DenseTasks db' B ∧
      findTask db' tid = some { t with list_id := B, position := p } := by
  have htid : t.id = tid := by
    simpa using List.find?_some ht
  have htmem : t ∈ db.tasks := List.mem_of_find?_eq_some ht
  have htl : t ∈ tasksInList db t.list_id := mem_tasksInList_of_findTask ht
  obtain ⟨hb0, hb1⟩ := dense_position_bounds hdA htl
  have hk : ((t.position.toNat : Nat) : Int) = t.position := Int.toNat_of_nonneg hb0
  have hkNa : t.position.toNat < countTasksInList db t.list_id := by omega
  have hq : ((p.toNat : Nat) : Int) = p := Int.toNat_of_nonneg hp0
  have hqNb : p.toNat ≤ countTasksInList db B := by omega
  -- source container
  have hS := taskPositions_move_src (p := p) htmem htid hAB hids
  have hAeq : (taskPositions db t.list_id).length = countTasksInList db t.list_id :=
    taskPositions_length db t.list_id
  have hErase : List.Perm ((taskPositions db t.list_id).erase t.position)
      ((rangeInt (countTasksInList db t.list_id)).erase t.position) := by
    have := hdA.erase t.position
    rwa [hAeq] at this
  have hcompact := compact_erase_rangeInt hkNa
  rw [hk] at hcompact
  have hstep := hErase.map (fun x => if t.position < x then x - 1 else x)
  rw [hcompact] at hstep
  have hSfull : List.Perm
      (taskPositions
        { db with
          tasks := db.tasks.map (moveCrossShift tid t.list_id B t.position p) }
        t.list_id)
      (rangeInt (countTasksInList db t.list_id - 1)) := hS.trans hstep
  have hlenA : (taskPositions
      { db with
        tasks := db.tasks.map (moveCrossShift tid t.list_id B t.position p) }
      t.list_id).length = countTasksInList db t.list_id - 1 := by
    rw [hSfull.length_eq, rangeInt_length]
  -- target container
  have hD := taskPositions_move_dst (p := p) htmem htid hAB hids
  have hBeq : (taskPositions db B).length = countTasksInList db B :=
    taskPositions_length db B
  have hmapB : List.Perm
      ((taskPositions db B).map (fun x => if p ≤ x then x + 1 else x))
      ((rangeInt (countTasksInList db B)).map (fun x => if p ≤ x then x + 1 else x)) := by
    have := hdB.map (fun x => if p ≤ x then x + 1 else x)
    rwa [hBeq] at this
  have hopen := openSlot_rangeInt hqNb
  rw [hq] at hopen
  have hDfull : List.Perm
      (taskPositions
        { db with
          tasks := db.tasks.map (moveCrossShift tid t.list_id B t.position p) }
        B)
      (rangeInt (countTasksInList db B + 1)) :=
    hD.trans ((hmapB.cons p).trans hopen)
  have hlenB : (taskPositions
      { db with
        tasks := db.tasks.map (moveCrossShift tid t.list_id B t.position p) }
      B).length = countTasksInList db B + 1 := by
    rw [hDfull.length_eq, rangeInt_length]
  -- the moved task
  have hfid : ∀ u, ((moveCrossShift tid t.list_id B t.position p) u).id = u.id := by
    intro u
    unfold moveCrossShift
    split_ifs <;> rfl
  have hft : moveCrossShift tid t.list_id B t.position p t =
      { t with list_id := B, position := p } := by
    unfold moveCrossShift
    simp [htid]
  refine ⟨_, move_eq_crossShift db tid B t lB p ht hB hAB hp0 hp1, rfl,
    ?_, ?_, ?_, ?_, ?_⟩
  · rw [← taskPositions_length, hlenA]
  · unfold DenseTasks
    rw [hlenA]
    exact hSfull
  · rw [← taskPositions_length, hlenB]
  · unfold DenseTasks
    rw [hlenB]
    exact hDfull
  · rw [findTask_map hfid, ht]
    simp [hft]

/-- Concrete database for the move witness: list 1 holds tasks A and B,
list 2 is empty. -/
def moveDB : DB :=
  { projects := [⟨1, "P"⟩],
    lists := [⟨1, "L", 1, 0⟩, ⟨2, "M", 1, 1⟩],
    tasks := [⟨1, "A", none, 1, 0⟩, ⟨2, "B", none, 1, 1⟩] }

/-- Witness for C4: move task A from list 1 (positions [0,1]) to the
empty list 2 at position 0. -/
theorem C4_move_conservation_witness :
    ∃ db', move_task moveDB 1 2 0 = .ok db' ∧
      db'.tasks = moveDB.tasks.map (moveCrossShift 1 1 2 0 0) ∧
      countTasksInList db' 1 = countTasksInList moveDB 1 - 1 ∧
      DenseTasks db' 1 ∧
      countTasksInList db' 2 = countTasksInList moveDB 2 + 1 ∧
      DenseTasks db' 2 ∧
      findTask db' 1 = some ⟨1, "A", none, 2, 0⟩ :=
  C4_move_conservation moveDB 1 2 ⟨1, "A", none, 1, 0⟩ ⟨2, "M", 1, 1⟩ 0
    (by decide) (by decide) (by decide) (by decide) (by decide) (by decide)
    (by decide) (by decide)

end TaskFlow
